import Mathlib

/-!
Shallow embedding of the `z3_recipes` repository (files `src/recipes.py` and
`src/refinement.py`).

The repository encodes a nutrition-blending problem as constraints over real
(rational) valued symbolic coefficients and enumerates several distinct
satisfying assignments by repeatedly solving and adding a blocking
disjunction.  The external z3 solving engine is out of scope of the
repository; following the spec it is treated as an opaque engine exposing
check / model.  We model it as an `oracle` function from the current
constraint list to a `CheckResult`, and theorems that depend on the engine
assume only its soundness (a returned model satisfies every constraint that
was in the system when it was produced).

Python floats fed to z3 become exact rationals, so numeric values are
embedded as `ℚ`.  Fallible Python code (division by zero, indexing an empty
list) is embedded with `Except PyError`.
-/

set_option autoImplicit false

namespace Z3Recipes

/-- Runtime errors that the Python code in this repository can actually
raise: `ZeroDivisionError` from `fat / gramsPerServing` in
`MacroTriple.__init__`, and `IndexError` from `ingredients[0]` in
`recipeFormula`. -/
inductive PyError where
  | zeroDivisionError
  | indexError
deriving DecidableEq

/-- A z3 model, as the Python code observes it through `model.decls()` and
`model[d]`: a finite association of variable names to rational values. -/
abbrev Model := List (String × ℚ)

/-- Value of variable `x` in model `m`; unmentioned variables evaluate to `0`
(z3 model completion uses a default value for variables the model does not
constrain). -/
def lookupModel (m : Model) (x : String) : ℚ :=
  match m with
  | [] => 0
  | (y, v) :: rest => if y = x then v else lookupModel rest x

/-- Real-valued z3 terms built by `recipes.py`: numeric literals, symbolic
variables (`z3.Real`), sums and products. -/
inductive RExpr where
  | const : ℚ → RExpr
  | var : String → RExpr
  | add : RExpr → RExpr → RExpr
  | mul : RExpr → RExpr → RExpr
deriving DecidableEq

/-- Evaluation of a term under a model. -/
def RExpr.eval (m : Model) : RExpr → ℚ
  | .const q => q
  | .var x => lookupModel m x
  | .add a b => a.eval m + b.eval m
  | .mul a b => a.eval m * b.eval m

/-- Variable names occurring in a term. -/
def RExpr.varNames : RExpr → List String
  | .const _ => []
  | .var x => [x]
  | .add a b => a.varNames ++ b.varNames
  | .mul a b => a.varNames ++ b.varNames

/-- The constraints the repository adds to the solver: strict bounds
(`coefficient > min_bound`, `coefficient < max_bound`), the FDA ordering
(`coef1 >= coef2`), the target equalities (`f_eq == target.fat` etc.), and
the blocking clause `z3.Or(d() != model[d] for d in model.decls())`, which we
keep in the specialized form `orNe entries` (disjunction of disequalities
variable-name ≠ value). -/
inductive Constraint where
  | lt : RExpr → RExpr → Constraint
  | gt : RExpr → RExpr → Constraint
  | ge : RExpr → RExpr → Constraint
  | eqc : RExpr → RExpr → Constraint
  | orNe : List (String × ℚ) → Constraint
deriving DecidableEq

/-- Truth of a constraint under a model. -/
def Constraint.holds (m : Model) : Constraint → Bool
  | .lt a b => decide (a.eval m < b.eval m)
  | .gt a b => decide (b.eval m < a.eval m)
  | .ge a b => decide (b.eval m ≤ a.eval m)
  | .eqc a b => decide (a.eval m = b.eval m)
  | .orNe l => l.any fun p => decide (lookupModel m p.1 ≠ p.2)

/-- Variable names occurring in a constraint. -/
def Constraint.varNames : Constraint → List String
  | .lt a b => a.varNames ++ b.varNames
  | .gt a b => a.varNames ++ b.varNames
  | .ge a b => a.varNames ++ b.varNames
  | .eqc a b => a.varNames ++ b.varNames
  | .orNe l => l.map Prod.fst

/-- A z3 `Solver` as the repository uses it: the accumulated list of added
constraints, in order of addition (`s.add` appends). -/
abbrev SolverState := List Constraint

/-- Result of `solver.check()`: `z3.sat` (with the model `solver.model()`
then returns), `z3.unsat`, or `z3.unknown`. -/
inductive CheckResult where
  | sat : Model → CheckResult
  | unsat : CheckResult
  | unknown : CheckResult

/-- The external solving engine, abstracted as in the spec: a function from
the current constraint system to a check result. -/
abbrev Oracle := SolverState → CheckResult

/-- Soundness of the engine: a model returned by a `sat` answer satisfies
every constraint in the system that was checked. -/
def SoundOracle (oracle : Oracle) : Prop :=
  ∀ cs m, oracle cs = .sat m → ∀ c ∈ cs, Constraint.holds m c = true

/-- z3 models list each declaration once: the models an engine returns have
no duplicate variable names. -/
def NodupOracle (oracle : Oracle) : Prop :=
  ∀ cs m, oracle cs = .sat m → (m.map Prod.fst).Nodup

/-- `MacroTriple` from `recipes.py`: name plus per-gram fat, carbs and
protein (spelled `protien` in the source), already normalized. -/
structure MacroTriple where
  name : String
  fat : ℚ
  carbs : ℚ
  protien : ℚ
deriving DecidableEq

/-- `MacroTriple.__init__`: stores `fat / gramsPerServing` (likewise carbs
and protein).  Python raises `ZeroDivisionError` when `gramsPerServing` is
zero; any nonzero value, negative included, is accepted without check. -/
def MacroTriple.init (name : String) (fat carbs protien gramsPerServing : ℚ) :
    Except PyError MacroTriple :=
  if gramsPerServing = 0 then
    .error .zeroDivisionError
  else
    .ok ⟨name, fat / gramsPerServing, carbs / gramsPerServing, protien / gramsPerServing⟩

/-- The name of the coefficient variable `z3.Real(f"K_{self.name}")`. -/
def MacroTriple.coefName (t : MacroTriple) : String := "K_" ++ t.name

/-- `MacroTriple.with_coef` (also what each unpacking through
`MacroTriple.__iter__` yields): the three per-gram macro values together
with the symbolic coefficient.  z3 interns `Real` variables by name, so the
coefficient is fully determined by the string `K_{name}`; we embed it as
that name. -/
def MacroTriple.with_coef (t : MacroTriple) : ℚ × ℚ × ℚ × String :=
  (t.fat, t.carbs, t.protien, t.coefName)

/-- The `for ... in ingredients[1::]` loop of `recipeFormula`: appends the
two bound constraints for each remaining ingredient and accumulates the
three weighted-sum terms. -/
def recipeLoop (min_bound max_bound : ℚ) (s : SolverState) (f_eq c_eq p_eq : RExpr) :
    List MacroTriple → SolverState × RExpr × RExpr × RExpr
  | [] => (s, f_eq, c_eq, p_eq)
  | i :: rest =>
    recipeLoop min_bound max_bound
      (s ++ [.gt (.var i.coefName) (.const min_bound), .lt (.var i.coefName) (.const max_bound)])
      (.add f_eq (.mul (.var i.coefName) (.const i.fat)))
      (.add c_eq (.mul (.var i.coefName) (.const i.carbs)))
      (.add p_eq (.mul (.var i.coefName) (.const i.protien)))
      rest

/-- The `it.pairwise(ingredients)` loop: one `coef1 >= coef2` constraint per
consecutive pair, in list order. -/
def pairwiseGe : List MacroTriple → List Constraint
  | a :: b :: rest => .ge (.var a.coefName) (.var b.coefName) :: pairwiseGe (b :: rest)
  | _ => []

/-- `recipeFormula` from `recipes.py`.  There is no input validation: an
empty ingredient list fails with `IndexError` at `ingredients[0]`, and the
bounds are used as given.  Constraints appear in addition order: bounds of
the first ingredient, bounds of each later ingredient, the consecutive-pair
ordering constraints, then the three target equalities. -/
def recipeFormula (ingredients : List MacroTriple) (target : MacroTriple)
    (min_bound max_bound : ℚ) : Except PyError SolverState :=
  match ingredients with
  | [] => .error .indexError
  | i0 :: rest =>
    let s0 : SolverState :=
      [.gt (.var i0.coefName) (.const min_bound), .lt (.var i0.coefName) (.const max_bound)]
    let r := recipeLoop min_bound max_bound s0
      (.mul (.var i0.coefName) (.const i0.fat))
      (.mul (.var i0.coefName) (.const i0.carbs))
      (.mul (.var i0.coefName) (.const i0.protien)) rest
    .ok (r.1 ++ pairwiseGe (i0 :: rest) ++
      [.eqc r.2.1 (.const target.fat),
       .eqc r.2.2.1 (.const target.carbs),
       .eqc r.2.2.2 (.const target.protien)])

/-- The enumeration loop shared verbatim by `refinement` in `refinement.py`
and `getMultipleRecipeModels` in `recipes.py`:
`while solver.check() == z3.sat and count < max_models`, record the model,
and `solver.add(z3.Or(*(d() != model[d] for d in model.decls())))`.  Both
`unsat` and `unknown` fail the `== z3.sat` test and exit the loop.  The
result is the collected models together with the final (mutated) solver
state. -/
def refineLoop (oracle : Oracle) : Nat → SolverState → List Model × SolverState
  | remaining, cs =>
    match oracle cs, remaining with
    | .unsat, _ => ([], cs)
    | .unknown, _ => ([], cs)
    | .sat _, 0 => ([], cs)
    | .sat m, r + 1 =>
      let res := refineLoop oracle r (cs ++ [Constraint.orNe m])
      (m :: res.1, res.2)

/-- `getMultipleRecipeModels(solver, max_models)` from `recipes.py`: returns
the list of models (printing "No recipes found." when it is empty is a
console side effect, not part of the returned value).  The second component
records the state the caller-supplied solver is left in. -/
def getMultipleRecipeModels (oracle : Oracle) (solver : SolverState) (max_models : Nat) :
    List Model × SolverState :=
  refineLoop oracle max_models solver

/-- `refinement(solver, max_models)` from `refinement.py`: the same loop,
but when no model was found it prints a message and returns `None` instead
of the empty list. -/
def refinement (oracle : Oracle) (solver : SolverState) (max_models : Nat) :
    Option (List Model) × SolverState :=
  let r := refineLoop oracle max_models solver
  (if r.1 = [] then none else some r.1, r.2)

/-- The engine that always answers `unsat`. -/
def unsatOracle : Oracle := fun _ => .unsat

/-- The engine that always answers `unknown` (gave up). -/
def unknownOracle : Oracle := fun _ => .unknown

/-- A reference engine for concrete runs: answers `sat` with the fixed model
`m0` whenever `m0` satisfies every constraint of the queried system, and
`unsat` otherwise. -/
def modelOracle (m0 : Model) : Oracle :=
  fun cs => if cs.all (Constraint.holds m0) then .sat m0 else .unsat

/-- Spec-side description of the bound constraints `recipeLoop` appends. -/
def boundsList (min_bound max_bound : ℚ) : List MacroTriple → List Constraint
  | [] => []
  | i :: rest =>
    .gt (.var i.coefName) (.const min_bound) :: .lt (.var i.coefName) (.const max_bound) ::
      boundsList min_bound max_bound rest

/-- Spec-side description of the accumulated weighted-sum term: starting
from `acc`, fold `+ coefficient_i * (g i)` over the list. -/
def sumAcc (g : MacroTriple → ℚ) (acc : RExpr) : List MacroTriple → RExpr
  | [] => acc
  | i :: rest => sumAcc g (.add acc (.mul (.var i.coefName) (.const (g i)))) rest

/-- Demo ingredient A from the end-to-end scenario of the spec: fat 1,
carbs 0, protein 0 per unit. -/
def ingA : MacroTriple := ⟨"a", 1, 0, 0⟩

/-- Demo ingredient B: fat 0, carbs 1, protein 0 per unit. -/
def ingB : MacroTriple := ⟨"b", 0, 1, 0⟩

/-- Demo target: fat 2, carbs 2, protein 0. -/
def tgtT : MacroTriple := ⟨"t", 2, 2, 0⟩

/-- The unique satisfying assignment of the demo problem
(`K_a = 2, K_b = 2`). -/
def mAB : Model := [("K_a", 2), ("K_b", 2)]

/-- The constraint system `recipeFormula [ingA, ingB] tgtT 1 10` builds,
written out. -/
def csAB : SolverState :=
  [.gt (.var "K_a") (.const 1), .lt (.var "K_a") (.const 10),
   .gt (.var "K_b") (.const 1), .lt (.var "K_b") (.const 10),
   .ge (.var "K_a") (.var "K_b"),
   .eqc (.add (.mul (.var "K_a") (.const 1)) (.mul (.var "K_b") (.const 0))) (.const 2),
   .eqc (.add (.mul (.var "K_a") (.const 0)) (.mul (.var "K_b") (.const 1))) (.const 2),
   .eqc (.add (.mul (.var "K_a") (.const 0)) (.mul (.var "K_b") (.const 0))) (.const 0)]

/-- A one-constraint system used for small concrete runs. -/
def demoSystem : SolverState := [.gt (.var "K_a") (.const 1)]

/-- A model of `demoSystem`. -/
def mA : Model := [("K_a", 2)]

end Z3Recipes

namespace Z3Recipes

theorem refineLoop_unsat (oracle : Oracle) (n : Nat) (cs : SolverState)
    (h : oracle cs = .unsat) : refineLoop oracle n cs = ([], cs) := by
  cases n <;> simp [refineLoop, h]

theorem refineLoop_unknown (oracle : Oracle) (n : Nat) (cs : SolverState)
    (h : oracle cs = .unknown) : refineLoop oracle n cs = ([], cs) := by
  cases n <;> simp [refineLoop, h]

theorem refineLoop_sat_zero (oracle : Oracle) (cs : SolverState) (m : Model)
    (h : oracle cs = .sat m) : refineLoop oracle 0 cs = ([], cs) := by
  simp [refineLoop, h]

theorem refineLoop_sat_succ (oracle : Oracle) (r : Nat) (cs : SolverState) (m : Model)
    (h : oracle cs = .sat m) :
    refineLoop oracle (r + 1) cs =
      ((m :: (refineLoop oracle r (cs ++ [Constraint.orNe m])).1),
       (refineLoop oracle r (cs ++ [Constraint.orNe m])).2) := by
  simp [refineLoop, h]

/-- Every model returned by the enumeration loop satisfies every constraint
of the system it started from (blocking clauses only shrink the solution
set of later models, they never relax earlier constraints). -/
theorem refineLoop_models_hold (oracle : Oracle) (hs : SoundOracle oracle) :
    ∀ (n : Nat) (cs : SolverState), ∀ m ∈ (refineLoop oracle n cs).1,
      ∀ c ∈ cs, Constraint.holds m c = true := by
  intro n
  induction n with
  | zero =>
    intro cs m hm
    cases h : oracle cs with
    | sat m0 => rw [refineLoop_sat_zero oracle cs m0 h] at hm; cases hm
    | unsat => rw [refineLoop_unsat oracle 0 cs h] at hm; cases hm
    | unknown => rw [refineLoop_unknown oracle 0 cs h] at hm; cases hm
  | succ r ih =>
    intro cs m hm
    cases h : oracle cs with
    | sat m0 =>
      rw [refineLoop_sat_succ oracle r cs m0 h] at hm
      rcases List.mem_cons.mp hm with rfl | hm2
      · exact hs cs m h
      · intro c hc
        exact ih (cs ++ [Constraint.orNe m0]) m hm2 c (List.mem_append_left _ hc)
    | unsat => rw [refineLoop_unsat oracle _ cs h] at hm; cases hm
    | unknown => rw [refineLoop_unknown oracle _ cs h] at hm; cases hm

/-- The solver state at the end of the loop is the initial state followed by
one blocking clause per returned model. -/
theorem refineLoop_final_state (oracle : Oracle) :
    ∀ (n : Nat) (cs : SolverState),
      (refineLoop oracle n cs).2 = cs ++ ((refineLoop oracle n cs).1).map Constraint.orNe := by
  intro n
  induction n with
  | zero =>
    intro cs
    cases h : oracle cs with
    | sat m0 => rw [refineLoop_sat_zero oracle cs m0 h]; simp
    | unsat => rw [refineLoop_unsat oracle 0 cs h]; simp
    | unknown => rw [refineLoop_unknown oracle 0 cs h]; simp
  | succ r ih =>
    intro cs
    cases h : oracle cs with
    | sat m0 =>
      rw [refineLoop_sat_succ oracle r cs m0 h]
      simp only [List.map_cons]
      rw [ih (cs ++ [Constraint.orNe m0])]
      simp
    | unsat => rw [refineLoop_unsat oracle _ cs h]; simp
    | unknown => rw [refineLoop_unknown oracle _ cs h]; simp

/-- In a model with no duplicate variable names, looking up the name of one
of its entries returns the value of that entry. -/
theorem lookupModel_mem_nodup :
    ∀ {m : Model}, (m.map Prod.fst).Nodup → ∀ {p : String × ℚ}, p ∈ m →
      lookupModel m p.1 = p.2 := by
  intro m
  induction m with
  | nil => intro _ p hp; cases hp
  | cons q rest ih =>
    intro hnd p hp
    rw [List.map_cons, List.nodup_cons] at hnd
    rcases List.mem_cons.mp hp with rfl | htail
    · simp [lookupModel]
    · have hne : q.1 ≠ p.1 := by
        intro e
        exact hnd.1 (e ▸ List.mem_map_of_mem Prod.fst htail)
      obtain ⟨y, v⟩ := q
      simp only [lookupModel, if_neg hne]
      exact ih hnd.2 htail

/-- A model that satisfies the blocking clause built from model `a` differs
from `a` on at least one variable `a` assigns. -/
theorem holds_orNe_diff {b : Model} {a : Model}
    (h : Constraint.holds b (Constraint.orNe a) = true) :
    ∃ p ∈ a, lookupModel b p.1 ≠ p.2 := by
  simp only [Constraint.holds, List.any_eq_true, decide_eq_true_eq] at h
  exact h

/-- Core distinctness property of the enumeration loop: each returned model
satisfies the blocking clause of every earlier one, so it differs from every
earlier model on at least one variable, and is not equal to it. -/
theorem refineLoop_pairwise (oracle : Oracle) (hs : SoundOracle oracle)
    (hn : NodupOracle oracle) :
    ∀ (n : Nat) (cs : SolverState),
      ((refineLoop oracle n cs).1).Pairwise
        (fun a b => (∃ p ∈ a, lookupModel b p.1 ≠ p.2) ∧ a ≠ b) := by
  intro n
  induction n with
  | zero =>
    intro cs
    cases h : oracle cs with
    | sat m0 => rw [refineLoop_sat_zero oracle cs m0 h]; exact List.Pairwise.nil
    | unsat => rw [refineLoop_unsat oracle 0 cs h]; exact List.Pairwise.nil
    | unknown => rw [refineLoop_unknown oracle 0 cs h]; exact List.Pairwise.nil
  | succ r ih =>
    intro cs
    cases h : oracle cs with
    | sat m0 =>
      rw [refineLoop_sat_succ oracle r cs m0 h]
      refine List.Pairwise.cons ?_ (ih (cs ++ [Constraint.orNe m0]))
      intro b hb
      have hblock : Constraint.holds b (Constraint.orNe m0) = true :=
        refineLoop_models_hold oracle hs r (cs ++ [Constraint.orNe m0]) b hb
          (Constraint.orNe m0) (List.mem_append_right _ (List.mem_singleton.mpr rfl))
      have hdiff := holds_orNe_diff hblock
      refine ⟨hdiff, ?_⟩
      intro heq
      subst heq
      obtain ⟨p, hp, hlp⟩ := hdiff
      exact hlp (lookupModel_mem_nodup (hn cs m0 h) hp)
    | unsat => rw [refineLoop_unsat oracle _ cs h]; exact List.Pairwise.nil
    | unknown => rw [refineLoop_unknown oracle _ cs h]; exact List.Pairwise.nil

theorem modelOracle_sound (m0 : Model) : SoundOracle (modelOracle m0) := by
  intro cs m h c hc
  by_cases hall : cs.all (Constraint.holds m0) = true
  · simp only [modelOracle, hall, if_true, CheckResult.sat.injEq] at h
    subst h
    exact List.all_eq_true.mp hall c hc
  · simp [modelOracle, hall] at h

theorem modelOracle_nodup (m0 : Model) (hm0 : (m0.map Prod.fst).Nodup) :
    NodupOracle (modelOracle m0) := by
  intro cs m h
  by_cases hall : cs.all (Constraint.holds m0) = true
  · simp only [modelOracle, hall, if_true, CheckResult.sat.injEq] at h
    subst h
    exact hm0
  · simp [modelOracle, hall] at h

theorem recipeLoop_eq (mb Mb : ℚ) :
    ∀ (l : List MacroTriple) (s : SolverState) (f c p : RExpr),
      recipeLoop mb Mb s f c p l =
        (s ++ boundsList mb Mb l,
         sumAcc (fun i => i.fat) f l,
         sumAcc (fun i => i.carbs) c l,
         sumAcc (fun i => i.protien) p l) := by
  intro l
  induction l with
  | nil => intro s f c p; simp [recipeLoop, boundsList, sumAcc]
  | cons i rest ih =>
    intro s f c p
    simp only [recipeLoop, boundsList, sumAcc, ih]
    simp

/-- Closed form of the system `recipeFormula` builds for a non-empty
ingredient list. -/
theorem recipeFormula_eq (i0 : MacroTriple) (rest : List MacroTriple)
    (target : MacroTriple) (mb Mb : ℚ) :
    recipeFormula (i0 :: rest) target mb Mb =
      .ok (boundsList mb Mb (i0 :: rest) ++ pairwiseGe (i0 :: rest) ++
        [.eqc (sumAcc (fun i => i.fat) (.mul (.var i0.coefName) (.const i0.fat)) rest)
           (.const target.fat),
         .eqc (sumAcc (fun i => i.carbs) (.mul (.var i0.coefName) (.const i0.carbs)) rest)
           (.const target.carbs),
         .eqc (sumAcc (fun i => i.protien) (.mul (.var i0.coefName) (.const i0.protien)) rest)
           (.const target.protien)]) := by
  simp [recipeFormula, recipeLoop_eq, boundsList]

theorem sumAcc_eval (m : Model) (g : MacroTriple → ℚ) :
    ∀ (l : List MacroTriple) (acc : RExpr),
      (sumAcc g acc l).eval m =
        acc.eval m + (l.map (fun i => lookupModel m i.coefName * g i)).sum := by
  intro l
  induction l with
  | nil => intro acc; simp [sumAcc]
  | cons i rest ih =>
    intro acc
    simp only [sumAcc, ih, RExpr.eval, List.map_cons, List.sum_cons]
    ring

theorem boundsList_mem (mb Mb : ℚ) :
    ∀ (l : List MacroTriple), ∀ i ∈ l,
      Constraint.gt (.var i.coefName) (.const mb) ∈ boundsList mb Mb l ∧
      Constraint.lt (.var i.coefName) (.const Mb) ∈ boundsList mb Mb l := by
  intro l
  induction l with
  | nil => intro i hi; cases hi
  | cons j rest ih =>
    intro i hi
    rcases List.mem_cons.mp hi with rfl | htail
    · constructor <;> simp [boundsList]
    · have h2 := ih i htail
      constructor
      · exact List.mem_cons_of_mem _ (List.mem_cons_of_mem _ h2.1)
      · exact List.mem_cons_of_mem _ (List.mem_cons_of_mem _ h2.2)

/-- A model that satisfies every ordering constraint of `pairwiseGe`
satisfies the chain of coefficient inequalities along the list. -/
theorem pairwiseGe_chain (m : Model) :
    ∀ (l : List MacroTriple), (∀ c ∈ pairwiseGe l, Constraint.holds m c = true) →
      l.Chain' (fun a b => lookupModel m b.coefName ≤ lookupModel m a.coefName) := by
  intro l
  induction l with
  | nil => intro _; exact List.chain'_nil
  | cons a rest ih =>
    cases rest with
    | nil => intro _; simp
    | cons b rest2 =>
      intro h
      rw [List.chain'_cons]
      constructor
      · have hge := h (Constraint.ge (.var a.coefName) (.var b.coefName))
          (by simp [pairwiseGe])
        simpa [Constraint.holds, RExpr.eval] using hge
      · exact ih (fun c hc => h c (by simp [pairwiseGe, hc]))

theorem pairwiseGe_varNames :
    ∀ (l : List MacroTriple), ∀ c ∈ pairwiseGe l, ∀ x ∈ c.varNames,
      ∃ i ∈ l, x = i.coefName := by
  intro l
  induction l with
  | nil => intro c hc; cases hc
  | cons a rest ih =>
    cases rest with
    | nil => intro c hc; cases hc
    | cons b rest2 =>
      intro c hc x hx
      rcases List.mem_cons.mp hc with rfl | htail
      · simp only [Constraint.varNames, RExpr.varNames] at hx
        rcases List.mem_append.mp hx with h1 | h2
        · exact ⟨a, by simp, by simpa using h1⟩
        · exact ⟨b, by simp, by simpa using h2⟩
      · obtain ⟨i, hi, hxi⟩ := ih c htail x hx
        exact ⟨i, List.mem_cons_of_mem _ hi, hxi⟩

theorem boundsList_varNames (mb Mb : ℚ) :
    ∀ (l : List MacroTriple), ∀ c ∈ boundsList mb Mb l, ∀ x ∈ c.varNames,
      ∃ i ∈ l, x = i.coefName := by
  intro l
  induction l with
  | nil => intro c hc; cases hc
  | cons a rest ih =>
    intro c hc x hx
    rcases List.mem_cons.mp hc with rfl | hc2
    · simp only [Constraint.varNames, RExpr.varNames] at hx
      exact ⟨a, by simp, by simpa using hx⟩
    rcases List.mem_cons.mp hc2 with rfl | hc3
    · simp only [Constraint.varNames, RExpr.varNames] at hx
      exact ⟨a, by simp, by simpa using hx⟩
    · obtain ⟨i, hi, hxi⟩ := ih c hc3 x hx
      exact ⟨i, List.mem_cons_of_mem _ hi, hxi⟩

theorem recipeFormula_demo : recipeFormula [ingA, ingB] tgtT 1 10 = .ok csAB := rfl

theorem modelOracle_demo_sat : modelOracle mAB csAB = .sat mAB := by
  have hall : csAB.all (Constraint.holds mAB) = true := by
    simp only [csAB, mAB, List.all_cons, List.all_nil, Constraint.holds, RExpr.eval,
      lookupModel, Bool.and_eq_true, decide_eq_true_eq]
    norm_num
  simp [modelOracle, hall]

theorem modelOracle_demo_blocked :
    modelOracle mAB (csAB ++ [Constraint.orNe mAB]) = .unsat := by
  have hblock : Constraint.holds mAB (Constraint.orNe mAB) = false := by
    simp [Constraint.holds, mAB, lookupModel]
  have hall : (csAB ++ [Constraint.orNe mAB]).all (Constraint.holds mAB) = false := by
    rw [List.all_append]
    simp [hblock]
  simp [modelOracle, hall]

theorem demo_loop :
    getMultipleRecipeModels (modelOracle mAB) csAB 3 =
      ([mAB], csAB ++ [Constraint.orNe mAB]) := by
  show refineLoop (modelOracle mAB) 3 csAB = ([mAB], csAB ++ [Constraint.orNe mAB])
  rw [refineLoop_sat_succ _ _ _ _ modelOracle_demo_sat,
    refineLoop_unsat _ _ _ modelOracle_demo_blocked]

theorem demo_mem : mAB ∈ (getMultipleRecipeModels (modelOracle mAB) csAB 3).1 := by
  rw [demo_loop]
  exact List.mem_singleton.mpr rfl

theorem mAB_nodup : ((mAB.map Prod.fst).Nodup) := by
  simp [mAB]

theorem sumAcc_varNames (g : MacroTriple → ℚ) :
    ∀ (l : List MacroTriple) (acc : RExpr), ∀ x ∈ (sumAcc g acc l).varNames,
      x ∈ acc.varNames ∨ ∃ i ∈ l, x = i.coefName := by
  intro l
  induction l with
  | nil => intro acc x hx; exact Or.inl hx
  | cons a rest ih =>
    intro acc x hx
    rcases ih _ x hx with hacc | ⟨i, hi, hxi⟩
    · simp only [RExpr.varNames] at hacc
      rcases List.mem_append.mp hacc with h1 | h2
      · exact Or.inl h1
      · exact Or.inr ⟨a, by simp, by simpa using h2⟩
    · exact Or.inr ⟨i, List.mem_cons_of_mem _ hi, hxi⟩

/-- A model satisfying the equality constraint between an accumulated
weighted-sum term and a target constant makes the weighted sum of the whole
ingredient list equal that constant. -/
theorem eqc_sum_of_holds (m : Model) (g : MacroTriple → ℚ) (i0 : MacroTriple)
    (rest : List MacroTriple) (t : ℚ)
    (h : Constraint.holds m
      (.eqc (sumAcc g (.mul (.var i0.coefName) (.const (g i0))) rest) (.const t)) = true) :
    ((i0 :: rest).map fun i => lookupModel m i.coefName * g i).sum = t := by
  simp only [Constraint.holds, decide_eq_true_eq] at h
  rw [sumAcc_eval] at h
  simp only [RExpr.eval] at h
  simpa [List.map_cons, List.sum_cons] using h

/-- C1: for every constraint system and every maxModels, the sequence of
Assignments returned by the enumerator (`refinement` /
`getMultipleRecipeModels`) contains no two identical Assignments: the
blocking disjunction added after each model forces every later model to
differ from every earlier one in at least one assigned variable.  The
external engine is assumed sound (its models satisfy the checked system)
and to list each variable once per model. -/
theorem C1_enumerator_models_distinct (oracle : Oracle) (hs : SoundOracle oracle)
    (hn : NodupOracle oracle) (cs : SolverState) (maxModels : Nat) :
    ((getMultipleRecipeModels oracle cs maxModels).1).Pairwise
      (fun a b => (∃ p ∈ a, lookupModel b p.1 ≠ p.2) ∧ a ≠ b) ∧
    (∀ ms, (refinement oracle cs maxModels).1 = some ms →
      ms.Pairwise (fun a b => (∃ p ∈ a, lookupModel b p.1 ≠ p.2) ∧ a ≠ b)) := by
  refine ⟨refineLoop_pairwise oracle hs hn maxModels cs, ?_⟩
  intro ms hms
  simp only [refinement] at hms
  by_cases h : (refineLoop oracle maxModels cs).1 = []
  · rw [if_pos h] at hms; cases hms
  · rw [if_neg h] at hms
    injection hms with h2
    subst h2
    exact refineLoop_pairwise oracle hs hn maxModels cs

theorem C1_witness :
    SoundOracle (modelOracle mAB) ∧ NodupOracle (modelOracle mAB) ∧
    ((getMultipleRecipeModels (modelOracle mAB) csAB 3).1).Pairwise
      (fun a b => (∃ p ∈ a, lookupModel b p.1 ≠ p.2) ∧ a ≠ b) :=
  ⟨modelOracle_sound mAB, modelOracle_nodup mAB mAB_nodup,
   (C1_enumerator_models_distinct (modelOracle mAB) (modelOracle_sound mAB)
     (modelOracle_nodup mAB mAB_nodup) csAB 3).1⟩

/-- C2: every Assignment the enumerator emits for a system built by
`recipeFormula` makes each of the three weighted macro-nutrient sums equal
the corresponding target value exactly, because the system contains the
three equality constraints and every returned model satisfies the system
(engine assumed sound). -/
theorem C2_models_meet_target (oracle : Oracle) (hs : SoundOracle oracle)
    (ings : List MacroTriple) (target : MacroTriple) (mb Mb : ℚ) (cs : SolverState)
    (hok : recipeFormula ings target mb Mb = .ok cs)
    (maxModels : Nat) (m : Model)
    (hm : m ∈ (getMultipleRecipeModels oracle cs maxModels).1) :
    (ings.map fun i => lookupModel m i.coefName * i.fat).sum = target.fat ∧
    (ings.map fun i => lookupModel m i.coefName * i.carbs).sum = target.carbs ∧
    (ings.map fun i => lookupModel m i.coefName * i.protien).sum = target.protien := by
  cases ings with
  | nil => simp [recipeFormula] at hok
  | cons i0 rest =>
    rw [recipeFormula_eq] at hok
    injection hok with hcs
    subst hcs
    have hold := refineLoop_models_hold oracle hs maxModels _ m hm
    refine ⟨?_, ?_, ?_⟩
    · exact eqc_sum_of_holds m (fun i => i.fat) i0 rest target.fat (hold _ (by simp))
    · exact eqc_sum_of_holds m (fun i => i.carbs) i0 rest target.carbs (hold _ (by simp))
    · exact eqc_sum_of_holds m (fun i => i.protien) i0 rest target.protien (hold _ (by simp))

theorem C2_witness :
    recipeFormula [ingA, ingB] tgtT 1 10 = .ok csAB ∧
    mAB ∈ (getMultipleRecipeModels (modelOracle mAB) csAB 3).1 ∧
    ([ingA, ingB].map fun i => lookupModel mAB i.coefName * i.fat).sum = tgtT.fat ∧
    ([ingA, ingB].map fun i => lookupModel mAB i.coefName * i.carbs).sum = tgtT.carbs ∧
    ([ingA, ingB].map fun i => lookupModel mAB i.coefName * i.protien).sum = tgtT.protien :=
  ⟨recipeFormula_demo, demo_mem,
   C2_models_meet_target (modelOracle mAB) (modelOracle_sound mAB)
     [ingA, ingB] tgtT 1 10 csAB recipeFormula_demo 3 mAB demo_mem⟩

/-- C3: every Assignment the enumerator emits for a system built by
`recipeFormula ings target min_bound max_bound` gives each coefficient a
value strictly between `min_bound` and `max_bound`, and the values are
non-increasing along consecutive pairs in the supplied ingredient order
(engine assumed sound). -/
theorem C3_bounds_and_ordering (oracle : Oracle) (hs : SoundOracle oracle)
    (ings : List MacroTriple) (target : MacroTriple) (mb Mb : ℚ) (cs : SolverState)
    (hok : recipeFormula ings target mb Mb = .ok cs)
    (maxModels : Nat) (m : Model)
    (hm : m ∈ (getMultipleRecipeModels oracle cs maxModels).1) :
    (∀ i ∈ ings, mb < lookupModel m i.coefName ∧ lookupModel m i.coefName < Mb) ∧
    ings.Chain' (fun a b => lookupModel m b.coefName ≤ lookupModel m a.coefName) := by
  cases ings with
  | nil => simp [recipeFormula] at hok
  | cons i0 rest =>
    rw [recipeFormula_eq] at hok
    injection hok with hcs
    subst hcs
    have hold := refineLoop_models_hold oracle hs maxModels _ m hm
    constructor
    · intro i hi
      have hmem := boundsList_mem mb Mb (i0 :: rest) i hi
      constructor
      · have h1 := hold _ (by simp only [List.mem_append]; exact Or.inl (Or.inl hmem.1))
        simpa [Constraint.holds, RExpr.eval] using h1
      · have h2 := hold _ (by simp only [List.mem_append]; exact Or.inl (Or.inl hmem.2))
        simpa [Constraint.holds, RExpr.eval] using h2
    · refine pairwiseGe_chain m (i0 :: rest) ?_
      intro c hc
      exact hold _ (by simp only [List.mem_append]; exact Or.inl (Or.inr hc))

theorem C3_witness :
    recipeFormula [ingA, ingB] tgtT 1 10 = .ok csAB ∧
    mAB ∈ (getMultipleRecipeModels (modelOracle mAB) csAB 3).1 ∧
    (∀ i ∈ [ingA, ingB], 1 < lookupModel mAB i.coefName ∧ lookupModel mAB i.coefName < 10) ∧
    [ingA, ingB].Chain' (fun a b => lookupModel mAB b.coefName ≤ lookupModel mAB a.coefName) :=
  ⟨recipeFormula_demo, demo_mem,
   C3_bounds_and_ordering (modelOracle mAB) (modelOracle_sound mAB)
     [ingA, ingB] tgtT 1 10 csAB recipeFormula_demo 3 mAB demo_mem⟩

/-- C4 counterexample: `recipeFormula` with `min_bound = 5, max_bound = 3`
(bounds the claim says must raise `InvalidBoundsError`) succeeds and
produces a constraint system. -/
theorem C4_counterexample :
    (recipeFormula [ingA] tgtT 5 3).isOk = true ∧ (3 : ℚ) ≤ 5 := by
  constructor
  · rfl
  · decide

/-- C4 (amended): `recipeFormula` performs no input validation.  For every
non-empty ingredient list it returns a constraint system whatever the
bounds are, and for the empty list it fails with `IndexError` (from
`ingredients[0]`), not with `EmptyIngredientListError`. -/
theorem C4_no_validation (ings : List MacroTriple) (target : MacroTriple) (mb Mb : ℚ) :
    (ings ≠ [] → (recipeFormula ings target mb Mb).isOk = true) ∧
    recipeFormula [] target mb Mb = .error .indexError := by
  constructor
  · intro h
    cases ings with
    | nil => exact absurd rfl h
    | cons i0 rest => rw [recipeFormula_eq]; rfl
  · rfl

theorem C4_witness :
    [ingA] ≠ ([] : List MacroTriple) ∧ (recipeFormula [ingA] tgtT 1 10).isOk = true :=
  ⟨by simp, (C4_no_validation [ingA] tgtT 1 10).1 (by simp)⟩

/-- C5 counterexample: the constructor accepts the non-positive reference
serving size `-1` and succeeds, instead of failing with
`InvalidProfileError`. -/
theorem C5_counterexample :
    (MacroTriple.init "x" 1 1 1 (-1)).isOk = true ∧ (-1 : ℚ) ≤ 0 := by
  constructor
  · simp [MacroTriple.init, Except.isOk, Except.toBool]
  · decide

/-- C5 (amended): `MacroTriple.__init__` performs no validation of the
reference serving size.  Any nonzero `gramsPerServing` (negative included)
succeeds and stores the raw masses divided by it; `gramsPerServing = 0`
fails with Python's `ZeroDivisionError`, not `InvalidProfileError`. -/
theorem C5_init_behavior (name : String) (f c p g : ℚ) :
    (g ≠ 0 → MacroTriple.init name f c p g = .ok ⟨name, f / g, c / g, p / g⟩) ∧
    MacroTriple.init name f c p 0 = .error .zeroDivisionError := by
  constructor
  · intro h
    simp [MacroTriple.init, h]
  · simp [MacroTriple.init]

theorem C5_witness :
    (2 : ℚ) ≠ 0 ∧ MacroTriple.init "x" 1 1 1 2 = .ok ⟨"x", 1 / 2, 1 / 2, 1 / 2⟩ :=
  ⟨by norm_num, (C5_init_behavior "x" 1 1 1 2).1 (by norm_num)⟩

/-- C6 counterexample: on an unsatisfiable system, `refinement` returns
`None`, not an explicit empty-result sequence. -/
theorem C6_counterexample : (refinement unsatOracle demoSystem 10).1 = none := by rfl

/-- C6 (amended): when the first check is `Unsatisfiable`,
`getMultipleRecipeModels` returns the empty list (alongside a printed
diagnostic), but `refinement` returns `None` instead of an empty
sequence. -/
theorem C6_empty_result (oracle : Oracle) (s : SolverState) (n : Nat)
    (h : oracle s = .unsat) :
    (getMultipleRecipeModels oracle s n).1 = [] ∧ (refinement oracle s n).1 = none := by
  have hr := refineLoop_unsat oracle n s h
  refine ⟨?_, ?_⟩
  · show (refineLoop oracle n s).1 = []
    rw [hr]
  · simp [refinement, hr]

theorem C6_witness :
    unsatOracle demoSystem = .unsat ∧
    (getMultipleRecipeModels unsatOracle demoSystem 5).1 = [] ∧
    (refinement unsatOracle demoSystem 5).1 = none :=
  ⟨rfl, C6_empty_result unsatOracle demoSystem 5 rfl⟩

/-- C7 counterexample: an engine that answers `Unknown` and an engine that
answers `Unsatisfiable` produce exactly the same observable results from
both enumerators — `Unknown` is not reported as a distinct condition. -/
theorem C7_counterexample :
    getMultipleRecipeModels unknownOracle demoSystem 5 =
      getMultipleRecipeModels unsatOracle demoSystem 5 ∧
    refinement unknownOracle demoSystem 5 = refinement unsatOracle demoSystem 5 := by
  exact ⟨rfl, rfl⟩

/-- C7 (amended): the loop guard `solver.check() == z3.sat` treats
`Unknown` exactly like `Unsatisfiable`: the loop exits with the models
collected so far and no distinct error or indicator is produced. -/
theorem C7_unknown_conflated (oracle : Oracle) (s : SolverState) (n : Nat)
    (h : oracle s = .unknown) :
    getMultipleRecipeModels oracle s n = ([], s) ∧
    getMultipleRecipeModels oracle s n = getMultipleRecipeModels unsatOracle s n ∧
    refinement oracle s n = refinement unsatOracle s n := by
  have hr := refineLoop_unknown oracle n s h
  have hu : refineLoop unsatOracle n s = ([], s) := refineLoop_unsat unsatOracle n s rfl
  refine ⟨hr, ?_, ?_⟩
  · show refineLoop oracle n s = refineLoop unsatOracle n s
    rw [hr, hu]
  · simp [refinement, hr, hu]

theorem C7_witness :
    unknownOracle demoSystem = .unknown ∧
    getMultipleRecipeModels unknownOracle demoSystem 5 = ([], demoSystem) ∧
    getMultipleRecipeModels unknownOracle demoSystem 5 =
      getMultipleRecipeModels unsatOracle demoSystem 5 ∧
    refinement unknownOracle demoSystem 5 = refinement unsatOracle demoSystem 5 :=
  ⟨rfl, C7_unknown_conflated unknownOracle demoSystem 5 rfl⟩

/-- C8 counterexample: after a run that finds a model, the caller-supplied
system is left changed — the blocking clause stays in it. -/
theorem C8_counterexample :
    (getMultipleRecipeModels (modelOracle mA) demoSystem 3).2 ≠ demoSystem := by
  decide

/-- C8 (amended): the enumerator works directly on the caller-supplied
system, not on a private copy: on return the system equals the one passed
in followed by one blocking clause per returned model. -/
theorem C8_blocking_persists (oracle : Oracle) (s : SolverState) (n : Nat) :
    (getMultipleRecipeModels oracle s n).2 =
      s ++ ((getMultipleRecipeModels oracle s n).1).map Constraint.orNe ∧
    (refinement oracle s n).2 =
      s ++ ((getMultipleRecipeModels oracle s n).1).map Constraint.orNe := by
  refine ⟨refineLoop_final_state oracle n s, ?_⟩
  simpa [refinement, getMultipleRecipeModels] using refineLoop_final_state oracle n s

/-- C9 counterexample: two profiles with the same ingredient name coming
from different problem instances receive the same symbolic coefficient —
`z3.Real(f"K_{name}")` is keyed only by the ingredient name, with no
per-problem namespacing, so the variables are not distinct. -/
theorem C9_counterexample :
    (MacroTriple.mk "Oats" 1 2 3).with_coef.2.2.2 =
      (MacroTriple.mk "Oats" 4 5 6).with_coef.2.2.2 := rfl

/-- C9 (amended): each call to `with_coef` yields the coefficient named
`K_{name}`, determined solely by the profile's ingredient name; z3 interns
`Real` variables by name, so every problem instance in a process that uses
the same ingredient name gets the identical variable. -/
theorem C9_coef_keyed_by_name_only (t : MacroTriple) :
    t.with_coef.2.2.2 = "K_" ++ t.name := rfl

/-- C10: allocation of coefficients is keyed only by the ingredient name,
so any two same-named profiles (including repeated unpackings inside
`recipeFormula`) yield the one same variable, and every variable mentioned
by any constraint `recipeFormula` builds is the `K_{name}` coefficient of
one of the supplied ingredients — bounds, ordering and weighted-sum
constraints for a given ingredient all constrain that single variable. -/
theorem C10_single_variable_per_name (t u : MacroTriple) (h : t.name = u.name)
    (ings : List MacroTriple) (target : MacroTriple) (mb Mb : ℚ) (cs : SolverState)
    (hok : recipeFormula ings target mb Mb = .ok cs) :
    t.with_coef.2.2.2 = u.with_coef.2.2.2 ∧
    ∀ c ∈ cs, ∀ x ∈ c.varNames, ∃ i ∈ ings, x = i.coefName := by
  constructor
  · simp [MacroTriple.with_coef, MacroTriple.coefName, h]
  · cases ings with
    | nil => simp [recipeFormula] at hok
    | cons i0 rest =>
      rw [recipeFormula_eq] at hok
      injection hok with hcs
      subst hcs
      intro c hc x hx
      simp only [List.mem_append] at hc
      rcases hc with (hb | hp) | h3
      · exact boundsList_varNames mb Mb _ c hb x hx
      · exact pairwiseGe_varNames _ c hp x hx
      · have : ∃ g : MacroTriple → ℚ,
            c = Constraint.eqc
              (sumAcc g (.mul (.var i0.coefName) (.const (g i0))) rest)
              (.const (g target)) := by
          simp only [List.mem_cons, List.not_mem_nil, or_false] at h3
          rcases h3 with rfl | rfl | rfl
          · exact ⟨fun i => i.fat, rfl⟩
          · exact ⟨fun i => i.carbs, rfl⟩
          · exact ⟨fun i => i.protien, rfl⟩
        obtain ⟨g, rfl⟩ := this
        simp only [Constraint.varNames, List.mem_append] at hx
        rcases hx with hx1 | hx2
        · rcases sumAcc_varNames g rest _ x hx1 with hacc | ⟨i, hi, hxi⟩
          · simp only [RExpr.varNames, List.mem_append] at hacc
            rcases hacc with ha | ha
            · exact ⟨i0, by simp, by simpa using ha⟩
            · simp at ha
          · exact ⟨i, List.mem_cons_of_mem _ hi, hxi⟩
        · simp [RExpr.varNames] at hx2

theorem C10_witness :
    (MacroTriple.mk "Oats" 1 2 3).name = (MacroTriple.mk "Oats" 4 5 6).name ∧
    recipeFormula [ingA, ingB] tgtT 1 10 = .ok csAB ∧
    ((MacroTriple.mk "Oats" 1 2 3).with_coef.2.2.2 =
      (MacroTriple.mk "Oats" 4 5 6).with_coef.2.2.2 ∧
     ∀ c ∈ csAB, ∀ x ∈ c.varNames, ∃ i ∈ [ingA, ingB], x = i.coefName) :=
  ⟨rfl, recipeFormula_demo,
   C10_single_variable_per_name (MacroTriple.mk "Oats" 1 2 3) (MacroTriple.mk "Oats" 4 5 6)
     rfl [ingA, ingB] tgtT 1 10 csAB recipeFormula_demo⟩

end Z3Recipes
